import Mathlib

/-! Shallow embedding of `gtsam::ConditionalBase<KEY>` from
`gtsam/inference/ConditionalBase.h` (this repository).

Keys (`KEY`) are opaque identifiers usable as permutation-table indices; we
embed them as `Nat`.  The key storage `FactorBase<KEY>::keys_` is a
`std::vector<KEY>`, embedded as `List Nat`.  A `gtsam::Permutation` is queried
only through `operator[]`, so it is embedded as a function `Nat → Nat`.

`FactorBase<KEY>` itself (the base-class constructors, `FactorBase::equals`
and `FactorBase::permuteWithInverse`) is code of this repository that is not
under `src/`; where a definition depends on it, the definition is modelled
from the spec and says so in its doc comment.
-/

namespace gtsam

/-- The state of a `ConditionalBase<KEY>` object: the inherited key sequence
`FactorBase<KEY>::keys_` and the partition point `nrFrontals_`
(ConditionalBase.h line 55: "The first nFrontal variables are frontal and the
rest are parents."). -/
structure ConditionalBase where
  keys_ : List Nat
  nrFrontals_ : Nat
  deriving DecidableEq, Repr

namespace ConditionalBase

/-- Source: `size_t nrFrontals() const { return nrFrontals_; }` (line 136). -/
def nrFrontals (c : ConditionalBase) : Nat := c.nrFrontals_

/-- Source: `size_t nrParents() const { return FactorType::keys_.size() - nrFrontals_; }`
(line 139).  `size_t` subtraction: under the length invariant
`nrFrontals_ ≤ keys_.size()` no wraparound occurs, and `Nat` subtraction
agrees with it on that domain. -/
def nrParents (c : ConditionalBase) : Nat := c.keys_.length - c.nrFrontals_

/-- The view `frontals()` (lines 159-160): the iterator range
`[keys_.begin(), keys_.begin()+nrFrontals_)`, i.e. the first `nrFrontals_`
keys. -/
def frontals (c : ConditionalBase) : List Nat := c.keys_.take c.nrFrontals_

/-- The view `parents()` (lines 163-164): the iterator range
`[keys_.begin()+nrFrontals_, keys_.end())`, i.e. the keys after the first
`nrFrontals_`. -/
def parents (c : ConditionalBase) : List Nat := c.keys_.drop c.nrFrontals_

/-- The debug assertion inside `key()` (line 142): `assert(nrFrontals_==1)`. -/
def keyAssertOK (c : ConditionalBase) : Bool := c.nrFrontals_ == 1

/-- Source: `Key key() const { assert(nrFrontals_==1); return FactorType::keys_[0]; }`
(line 142).  `keys_[0]` is an unchecked `std::vector` access; the
out-of-range case (empty key sequence, undefined behaviour in C++) is
embedded as `none`. -/
def key (c : ConditionalBase) : Option Nat := c.keys_[0]?

/-- Source: `ConditionalBase() : nrFrontals_(0) {}` (line 90): empty key sequence,
zero frontals. -/
def mkEmpty : ConditionalBase := ⟨[], 0⟩

/-- Source: `ConditionalBase(Key key) : FactorType(key), nrFrontals_(1) {}` (line 93).
Modelled from the spec for the `FactorBase` part: the one-key base
constructor is not under `src/`; per the spec ("From one frontal key and
zero ... explicit parent keys", keys stored as an ordered sequence) it
stores the single key. -/
def mkNoParents (key : Nat) : ConditionalBase := ⟨[key], 1⟩

/-- Source: `ConditionalBase(Key key, Key parent)` (line 96).  Modelled from the spec
for the `FactorBase(key, parent)` part (not under `src/`): stores the two
keys in order. -/
def mkOneParent (key parent : Nat) : ConditionalBase := ⟨[key, parent], 1⟩

/-- Source: `ConditionalBase(Key key, Key parent1, Key parent2)` (line 99).  Modelled
from the spec for the `FactorBase` part (not under `src/`). -/
def mkTwoParents (key parent1 parent2 : Nat) : ConditionalBase :=
  ⟨[key, parent1, parent2], 1⟩

/-- Source: `ConditionalBase(Key key, Key parent1, Key parent2, Key parent3)`
(line 102).  Modelled from the spec for the `FactorBase` part (not under
`src/`). -/
def mkThreeParents (key parent1 parent2 parent3 : Nat) : ConditionalBase :=
  ⟨[key, parent1, parent2, parent3], 1⟩

/-- Source: `ConditionalBase(Key key, const std::vector<Key>& parents)`
(lines 105-109): `nrFrontals_ = 1`, `keys_.resize(1 + parents.size())`,
`*(beginFrontals()) = key` writes position 0, and
`std::copy(parents.begin(), parents.end(), beginParents())` writes the
parents at positions `1..`.  Net: `keys_ = key :: parents`. -/
def mkKeyParents (key : Nat) (parents : List Nat) : ConditionalBase :=
  ⟨key :: parents, 1⟩

/-- Source: `FromRange(Key key, ITERATOR firstParent, ITERATOR lastParent)`
(lines 112-119): a fresh default conditional, `nrFrontals_ = 1`,
`keys_.push_back(key)`, then the parent range is appended in order. -/
def FromRangeKey (key : Nat) (parents : List Nat) : ConditionalBase :=
  ⟨key :: parents, 1⟩

/-- Source: `FromRange(ITERATOR firstKey, ITERATOR lastKey, size_t nrFrontals)`
(lines 122-128): a fresh default conditional, `nrFrontals_` set to the given
count (unchecked), then the key range is appended in order. -/
def FromRange (keys : List Nat) (nrFrontals : Nat) : ConditionalBase :=
  ⟨keys, nrFrontals⟩

/-- Modelled from the spec: `FactorBase<KEY>::equals` is not under `src/`.
Per the spec, equality of the base factor holds iff "the full key sequences
are elementwise equal; ... keys are compared exactly", the tolerance being
ignored for keys. -/
def factorEquals (a b : List Nat) (tol : Rat) : Bool := a == b

/-- Source: `bool equals(const DERIVED& c, double tol) const` (lines 131-133):
`nrFrontals_ == c.nrFrontals_ && FactorType::equals(c, tol)`.  The `double`
tolerance is embedded as `Rat` (it is forwarded, never inspected here). -/
def equals (c d : ConditionalBase) (tol : Rat) : Bool :=
  c.nrFrontals_ == d.nrFrontals_ && factorEquals c.keys_ d.keys_ tol

/-- Source: `void print(const std::string& s) const` (lines 192-199), as the exact
character sequence written to `std::cout`: the label, `" P("`, `" <key>"`
for each frontal, `" |"` if `nrParents() > 0`, `" <parent>"` for each
parent, `")"`, and the line terminator emitted by `std::endl`. -/
def printOut (c : ConditionalBase) (s : String) : String :=
  let out := s ++ " P("
  let out := c.frontals.foldl (fun acc k => acc ++ " " ++ toString k) out
  let out := if c.nrParents > 0 then out ++ " |" else out
  let out := c.parents.foldl (fun acc k => acc ++ " " ++ toString k) out
  out ++ ")" ++ "\n"

/-- The debug assertion of `permuteSeparatorWithInverse` (line 205): every
frontal key must be a fixed point of the inverse permutation. -/
def sepAssertOK (c : ConditionalBase) (inversePermutation : Nat → Nat) : Bool :=
  c.frontals.all fun k => k == inversePermutation k

/-- The parent loop of `permuteSeparatorWithInverse` (lines 207-214): each
parent `p` is looked up, and if `inversePermutation[p]` differs the slot is
overwritten and the `parentChanged` flag set.  Returns the rewritten parent
list and the flag. -/
def permuteParentsLoop (inversePermutation : Nat → Nat) :
    List Nat → List Nat × Bool
  | [] => ([], false)
  | p :: rest =>
    let newParent := inversePermutation p
    let r := permuteParentsLoop inversePermutation rest
    (newParent :: r.1, (decide (p ≠ newParent)) || r.2)

/-- Source: `bool permuteSeparatorWithInverse(const Permutation& inversePermutation)`
(lines 202-216): rewrites the parent slots in place through
`permuteParentsLoop` and returns the updated conditional together with the
`parentChanged` flag that the C++ function returns. -/
def permuteSeparatorWithInverse (c : ConditionalBase)
    (inversePermutation : Nat → Nat) : ConditionalBase × Bool :=
  let r := permuteParentsLoop inversePermutation (c.parents)
  (⟨c.frontals ++ r.1, c.nrFrontals_⟩, r.2)

/-- The debug assertion of `permuteWithInverse` (lines 222-228): for every
frontal key and every separator key,
`inversePermutation[frontal] < inversePermutation[separator]`. -/
def permuteAssertOK (c : ConditionalBase) (inversePermutation : Nat → Nat) : Bool :=
  c.frontals.all fun f =>
    c.parents.all fun p =>
      decide (inversePermutation f < inversePermutation p)

/-- Modelled from the spec: `FactorBase<KEY>::permuteWithInverse`, which
`ConditionalBase::permuteWithInverse` (line 229) delegates to, is not under
`src/`.  Per the spec, it "relabels every key (frontal and parent) in
place", "replacing each ... key `p` with `inversePermutation[p]`". -/
def factorPermuteWithInverse (inversePermutation : Nat → Nat)
    (keys : List Nat) : List Nat :=
  keys.map inversePermutation

/-- Source: `void permuteWithInverse(const Permutation& inversePermutation)`
(lines 219-230): after the debug-only ordering assertion it delegates to
`FactorType::permuteWithInverse`; `nrFrontals_` is untouched. -/
def permuteWithInverse (c : ConditionalBase)
    (inversePermutation : Nat → Nat) : ConditionalBase :=
  ⟨factorPermuteWithInverse inversePermutation c.keys_, c.nrFrontals_⟩

/-- The length invariant of the data model: `nrFrontals ≤ len(keys)`. -/
def lengthInvariant (c : ConditionalBase) : Prop :=
  c.nrFrontals_ ≤ c.keys_.length

instance (c : ConditionalBase) : Decidable c.lengthInvariant :=
  inferInstanceAs (Decidable (_ ≤ _))

end ConditionalBase

end gtsam

namespace gtsam

/-- The "space-separated with a leading space" key rendering that
`ConditionalBase::print` uses for each of its two key ranges. -/
def renderKeys : List Nat → String
  | [] => ""
  | k :: ks => " " ++ toString k ++ renderKeys ks

namespace ConditionalBase

theorem permuteParentsLoop_fst (f : Nat → Nat) (l : List Nat) :
    (permuteParentsLoop f l).1 = l.map f := by
  induction l with
  | nil => rfl
  | cons p rest ih => simp [permuteParentsLoop, ih]

theorem permuteParentsLoop_snd (f : Nat → Nat) (l : List Nat) :
    (permuteParentsLoop f l).2 = true ↔ ∃ p ∈ l, f p ≠ p := by
  induction l with
  | nil => simp [permuteParentsLoop]
  | cons p rest ih =>
    simp only [permuteParentsLoop, Bool.or_eq_true, decide_eq_true_eq, ih,
      List.mem_cons, exists_eq_or_imp]
    rw [ne_comm]

theorem sep_take (f : Nat → Nat) (n : Nat) (keys : List Nat) :
    ((keys.take n) ++ (keys.drop n).map f).take n = keys.take n := by
  induction keys generalizing n with
  | nil => simp
  | cons k ks ih =>
    cases n with
    | zero => simp
    | succ m =>
      simp only [List.take_succ_cons, List.drop_succ_cons, List.cons_append, ih]

theorem sep_drop (f : Nat → Nat) (n : Nat) (keys : List Nat) :
    ((keys.take n) ++ (keys.drop n).map f).drop n = (keys.drop n).map f := by
  induction keys generalizing n with
  | nil => simp
  | cons k ks ih =>
    cases n with
    | zero => simp
    | succ m =>
      simp only [List.take_succ_cons, List.drop_succ_cons, List.cons_append, ih]

theorem nrParents_pos_iff (c : ConditionalBase) :
    0 < c.nrParents ↔ c.parents ≠ [] := by
  unfold nrParents parents
  rw [Ne, List.drop_eq_nil_iff]
  omega

theorem foldl_renderKeys (l : List Nat) (init : String) :
    l.foldl (fun acc k => acc ++ " " ++ toString k) init = init ++ renderKeys l := by
  induction l generalizing init with
  | nil => simp [renderKeys]
  | cons k ks ih =>
    rw [List.foldl_cons, ih]
    simp [renderKeys, String.append_assoc]

end ConditionalBase

end gtsam

namespace gtsam

open ConditionalBase

/-- Claim C1: for every conditional and every inverse permutation,
`permuteSeparatorWithInverse` replaces each parent key `p` by
`inversePermutation[p]` in place, leaves the frontal keys unchanged when
every frontal key is a fixed point of the permutation, and returns `true`
iff at least one parent key's mapped value differs from its value before
the call. -/
theorem permuteSeparatorWithInverse_spec
    (c : ConditionalBase) (inversePermutation : Nat → Nat) :
    (c.permuteSeparatorWithInverse inversePermutation).1.parents
        = c.parents.map inversePermutation
    ∧ ((∀ k ∈ c.frontals, inversePermutation k = k) →
        (c.permuteSeparatorWithInverse inversePermutation).1.frontals
          = c.frontals)
    ∧ ((c.permuteSeparatorWithInverse inversePermutation).2 = true
        ↔ ∃ p ∈ c.parents, inversePermutation p ≠ p) := by
  refine ⟨?_, fun _ => ?_, ?_⟩
  · show (List.take c.nrFrontals_ c.keys_ ++
        (permuteParentsLoop inversePermutation
          (List.drop c.nrFrontals_ c.keys_)).1).drop c.nrFrontals_ = _
    rw [permuteParentsLoop_fst]
    exact sep_drop inversePermutation c.nrFrontals_ c.keys_
  · show (List.take c.nrFrontals_ c.keys_ ++
        (permuteParentsLoop inversePermutation
          (List.drop c.nrFrontals_ c.keys_)).1).take c.nrFrontals_ = _
    rw [permuteParentsLoop_fst]
    exact sep_take inversePermutation c.nrFrontals_ c.keys_
  · exact permuteParentsLoop_snd inversePermutation c.parents

/-- Witness for claim C1 at `ConditionalBase(5, {2, 9})` with the inverse
permutation `{5 → 5, 2 → 0, 9 → 2}` (identity elsewhere): parents are
relabelled, frontals stay, and the change flag is `true`. -/
theorem permuteSeparatorWithInverse_spec_witness :
    ((ConditionalBase.mkKeyParents 5 [2, 9]).permuteSeparatorWithInverse
        (fun k => if k = 2 then 0 else if k = 9 then 2 else k)).1.parents
      = [0, 2]
    ∧ ((ConditionalBase.mkKeyParents 5 [2, 9]).permuteSeparatorWithInverse
        (fun k => if k = 2 then 0 else if k = 9 then 2 else k)).1.frontals
      = [5]
    ∧ ((ConditionalBase.mkKeyParents 5 [2, 9]).permuteSeparatorWithInverse
        (fun k => if k = 2 then 0 else if k = 9 then 2 else k)).2 = true := by
  have h := permuteSeparatorWithInverse_spec (ConditionalBase.mkKeyParents 5 [2, 9])
    (fun k => if k = 2 then 0 else if k = 9 then 2 else k)
  exact ⟨h.1, h.2.1 (by decide), h.2.2.mpr ⟨2, by decide, by decide⟩⟩

/-- Claim C10: for every conditional and every inverse permutation —
including ones that do not fix the frontal keys —
`permuteSeparatorWithInverse` leaves `nrFrontals_` and every
frontal-position key unchanged: it writes only to positions in the parent
range `[nrFrontals, n)`. -/
theorem permuteSeparatorWithInverse_frame
    (c : ConditionalBase) (inversePermutation : Nat → Nat) :
    (c.permuteSeparatorWithInverse inversePermutation).1.nrFrontals_
        = c.nrFrontals_
    ∧ (c.permuteSeparatorWithInverse inversePermutation).1.keys_.take
          c.nrFrontals_
        = c.keys_.take c.nrFrontals_
    ∧ (c.permuteSeparatorWithInverse inversePermutation).1.keys_.drop
          c.nrFrontals_
        = (c.keys_.drop c.nrFrontals_).map inversePermutation := by
  refine ⟨rfl, ?_, ?_⟩
  · show (List.take c.nrFrontals_ c.keys_ ++
        (permuteParentsLoop inversePermutation
          (List.drop c.nrFrontals_ c.keys_)).1).take c.nrFrontals_ = _
    rw [permuteParentsLoop_fst]
    exact sep_take inversePermutation c.nrFrontals_ c.keys_
  · show (List.take c.nrFrontals_ c.keys_ ++
        (permuteParentsLoop inversePermutation
          (List.drop c.nrFrontals_ c.keys_)).1).drop c.nrFrontals_ = _
    rw [permuteParentsLoop_fst]
    exact sep_drop inversePermutation c.nrFrontals_ c.keys_

/-- Claim C9: the debug assertion in `permuteWithInverse` passes iff for
every frontal key `f` and every parent key `p` of the conditional,
`inversePermutation[f] < inversePermutation[p]`; under this
elimination-ordering precondition the assertion-failure branch is
unreachable. -/
theorem permuteWithInverse_assertion_iff
    (c : ConditionalBase) (inversePermutation : Nat → Nat) :
    c.permuteAssertOK inversePermutation = true
      ↔ ∀ f ∈ c.frontals, ∀ p ∈ c.parents,
          inversePermutation f < inversePermutation p := by
  simp [permuteAssertOK, List.all_eq_true]

/-- Claim C2: applying `permuteWithInverse` with a mapping `M` and then with
the true inverse of `M` (inverse at least on the conditional's key domain)
restores the original key sequence. -/
theorem permuteWithInverse_roundtrip
    (c : ConditionalBase) (m mInv : Nat → Nat)
    (h : ∀ k ∈ c.keys_, mInv (m k) = k) :
    ((c.permuteWithInverse m).permuteWithInverse mInv).keys_ = c.keys_ := by
  show (c.keys_.map m).map mInv = c.keys_
  rw [List.map_map]
  exact List.map_congr_left h ▸ List.map_id c.keys_

/-- Witness for claim C2 at `ConditionalBase(5, {2, 9})` with the spec's
example inverse mapping `{5 → 1, 2 → 0, 9 → 2}` and its true inverse. -/
theorem permuteWithInverse_roundtrip_witness :
    (∀ k ∈ (ConditionalBase.mkKeyParents 5 [2, 9]).keys_,
      (fun j => if j = 1 then 5 else if j = 0 then 2 else if j = 2 then 9 else j)
        ((fun j => if j = 5 then 1 else if j = 2 then 0 else if j = 9 then 2 else j) k)
        = k)
    ∧ (((ConditionalBase.mkKeyParents 5 [2, 9]).permuteWithInverse
          (fun j => if j = 5 then 1 else if j = 2 then 0 else if j = 9 then 2 else j)).permuteWithInverse
          (fun j => if j = 1 then 5 else if j = 0 then 2 else if j = 2 then 9 else j)).keys_
        = (ConditionalBase.mkKeyParents 5 [2, 9]).keys_ :=
  ⟨by decide,
    permuteWithInverse_roundtrip (ConditionalBase.mkKeyParents 5 [2, 9])
      (fun j => if j = 5 then 1 else if j = 2 then 0 else if j = 9 then 2 else j)
      (fun j => if j = 1 then 5 else if j = 0 then 2 else if j = 2 then 9 else j)
      (by decide)⟩

end gtsam

namespace gtsam

open ConditionalBase

/-- Counterexample for claim C3: the multi-frontal `FromRange` factory
performs no check, so `FromRange` over the single-key range `[0]` with
frontal count `2` produces a conditional violating
`nrFrontals ≤ len(keys)`. -/
theorem lengthInvariant_cex :
    (ConditionalBase.FromRange [0] 2).keys_.length
      < (ConditionalBase.FromRange [0] 2).nrFrontals_ := by
  decide

/-- Claim C3 (amended): every conditional produced by the default
constructor, the explicit-parent constructors, the constructor from a
frontal key and a parent vector, and the single-frontal `FromRange` form
satisfies `nrFrontals ≤ len(keys)` unconditionally; a conditional produced
by the multi-frontal `FromRange` form satisfies it provided the supplied
frontal count is at most the number of supplied keys; and both permutation
operations preserve the invariant. -/
theorem lengthInvariant_all :
    ConditionalBase.mkEmpty.lengthInvariant
    ∧ (∀ k, (ConditionalBase.mkNoParents k).lengthInvariant)
    ∧ (∀ k p, (ConditionalBase.mkOneParent k p).lengthInvariant)
    ∧ (∀ k p1 p2, (ConditionalBase.mkTwoParents k p1 p2).lengthInvariant)
    ∧ (∀ k p1 p2 p3, (ConditionalBase.mkThreeParents k p1 p2 p3).lengthInvariant)
    ∧ (∀ k ps, (ConditionalBase.mkKeyParents k ps).lengthInvariant)
    ∧ (∀ k ps, (ConditionalBase.FromRangeKey k ps).lengthInvariant)
    ∧ (∀ keys n, n ≤ keys.length →
        (ConditionalBase.FromRange keys n).lengthInvariant)
    ∧ (∀ (c : ConditionalBase) (inversePermutation : Nat → Nat),
        c.lengthInvariant →
          (c.permuteSeparatorWithInverse inversePermutation).1.lengthInvariant
          ∧ (c.permuteWithInverse inversePermutation).lengthInvariant) := by
  refine ⟨Nat.le_refl 0, fun k => Nat.le_refl 1,
    fun k p => by show (1 : Nat) ≤ 2; decide,
    fun k p1 p2 => by show (1 : Nat) ≤ 3; decide,
    fun k p1 p2 p3 => by show (1 : Nat) ≤ 4; decide,
    fun k ps => by simp [lengthInvariant, mkKeyParents],
    fun k ps => by simp [lengthInvariant, FromRangeKey],
    fun keys n h => h, fun c inversePermutation h => ⟨?_, ?_⟩⟩
  · show c.nrFrontals_ ≤ (c.frontals ++
      (permuteParentsLoop inversePermutation c.parents).1).length
    rw [permuteParentsLoop_fst, List.length_append, List.length_map]
    unfold frontals parents lengthInvariant at *
    rw [List.length_take, List.length_drop]
    omega
  · show c.nrFrontals_ ≤ (c.keys_.map inversePermutation).length
    rw [List.length_map]
    exact h

/-- Witness for claim C3: the in-bounds `FromRange` case and the
preservation cases, instantiated at concrete inputs. -/
theorem lengthInvariant_all_witness :
    (ConditionalBase.FromRange [10, 20, 30] 2).lengthInvariant
    ∧ ((ConditionalBase.mkKeyParents 5 [2, 9]).permuteSeparatorWithInverse
        Nat.succ).1.lengthInvariant
    ∧ ((ConditionalBase.mkKeyParents 5 [2, 9]).permuteWithInverse
        Nat.succ).lengthInvariant := by
  have h := lengthInvariant_all
  have hp := h.2.2.2.2.2.2.2.2 (ConditionalBase.mkKeyParents 5 [2, 9])
    Nat.succ (by decide)
  exact ⟨h.2.2.2.2.2.2.2.1 [10, 20, 30] 2 (by decide), hp.1, hp.2⟩

/-- Claim C4: for every conditional built from a frontal key `f` and an
ordered parent vector `ps`, `nrFrontals()` is `1`, `nrParents()` is the
number of parents, `frontals()` is exactly `[f]`, and `parents()` is `ps`
in the supplied order. -/
theorem single_frontal_accessors (f : Nat) (ps : List Nat) :
    (ConditionalBase.mkKeyParents f ps).nrFrontals = 1
    ∧ (ConditionalBase.mkKeyParents f ps).nrParents = ps.length
    ∧ (ConditionalBase.mkKeyParents f ps).frontals = [f]
    ∧ (ConditionalBase.mkKeyParents f ps).parents = ps := by
  refine ⟨rfl, ?_, rfl, rfl⟩
  show (f :: ps).length - 1 = ps.length
  simp

/-- Claim C5: for every conditional built via the multi-frontal `FromRange`
factory from keys `[k0, …, km)` and frontal count `n ≤ m`: `nrFrontals()`
is `n`, `frontals()` yields the first `n` supplied keys in order, and
`parents()` yields the remaining keys in order (positionally:
`parents()[j] = keys[n + j]`). -/
theorem fromRange_partition (keys : List Nat) (n : Nat) (h : n ≤ keys.length) :
    (ConditionalBase.FromRange keys n).nrFrontals = n
    ∧ (ConditionalBase.FromRange keys n).frontals.length = n
    ∧ (∀ i, i < n →
        (ConditionalBase.FromRange keys n).frontals[i]? = keys[i]?)
    ∧ (∀ j, (ConditionalBase.FromRange keys n).parents[j]? = keys[n + j]?) := by
  refine ⟨rfl, ?_, fun i hi => ?_, fun j => ?_⟩
  · show (keys.take n).length = n
    rw [List.length_take]
    omega
  · show (keys.take n)[i]? = keys[i]?
    rw [List.getElem?_take]
    simp [hi]
  · show (keys.drop n)[j]? = keys[n + j]?
    rw [List.getElem?_drop]

/-- Witness for claim C5 at keys `[10, 20, 30]` with frontal count `2`. -/
theorem fromRange_partition_witness :
    (ConditionalBase.FromRange [10, 20, 30] 2).nrFrontals = 2
    ∧ (ConditionalBase.FromRange [10, 20, 30] 2).frontals.length = 2
    ∧ (ConditionalBase.FromRange [10, 20, 30] 2).frontals[1]? = some 20
    ∧ (ConditionalBase.FromRange [10, 20, 30] 2).parents[0]? = some 30 := by
  have h := fromRange_partition [10, 20, 30] 2 (by decide)
  refine ⟨h.1, h.2.1, ?_, ?_⟩
  · rw [h.2.2.1 1 (by decide)]; rfl
  · rw [h.2.2.2 0]; rfl

/-- Claim C6: for every two conditionals and every tolerance, `equals` is
`true` iff their `nrFrontals` values match and their full key sequences are
elementwise equal; the result is independent of the tolerance argument. -/
theorem equals_spec (c d : ConditionalBase) (tol : Rat) :
    (c.equals d tol = true ↔ c.nrFrontals_ = d.nrFrontals_ ∧ c.keys_ = d.keys_)
    ∧ (∀ tol2 : Rat, c.equals d tol = c.equals d tol2) := by
  constructor
  · simp [equals, factorEquals]
  · intro tol2
    rfl

end gtsam

namespace gtsam

open ConditionalBase

/-- Counterexample for claim C7: the claim's example output omits the line
terminator that `std::endl` writes, so the rendered character sequence is
not equal to `"X P( 5 | 2 9)"`. -/
theorem print_cex :
    ((ConditionalBase.mkKeyParents 5 [2, 9]).printOut "X" == "X P( 5 | 2 9)")
      = false := by
  decide

/-- Claim C7 (amended): for every conditional and label, `print(label)`
renders the label followed by `" P("`, the frontal keys space-separated, a
`" |"` separator exactly when the conditional has at least one parent, the
parent keys space-separated, a closing `")"`, and the newline written by
`std::endl`; e.g. frontal `5` with parents `[2, 9]` and label `"X"` renders
`"X P( 5 | 2 9)\n"`. -/
theorem print_renders :
    (∀ (c : ConditionalBase) (s : String),
      c.printOut s
        = s ++ " P(" ++ renderKeys c.frontals
            ++ (if c.parents = [] then "" else " |")
            ++ renderKeys c.parents ++ ")" ++ "\n")
    ∧ (ConditionalBase.mkKeyParents 5 [2, 9]).printOut "X"
        = "X P( 5 | 2 9)" ++ "\n" := by
  constructor
  · intro c s
    dsimp only [ConditionalBase.printOut]
    rw [foldl_renderKeys, foldl_renderKeys]
    by_cases hp : c.parents = []
    · rw [if_neg (fun hlt => (nrParents_pos_iff c).mp hlt hp), if_pos hp,
        String.append_empty]
    · rw [if_pos ((nrParents_pos_iff c).mpr hp), if_neg hp]
  · rfl

/-- Claim C8: when `nrFrontals() == 1` the debug assertion in `key()`
cannot fire and `key()` returns the sole frontal key, the first element of
the key sequence; when `nrFrontals()` differs from `1` the assertion fails
(a programming-error precondition failure). -/
theorem key_precondition (c : ConditionalBase) :
    (c.nrFrontals_ = 1 →
      c.keyAssertOK = true
      ∧ ∀ k ks, c.keys_ = k :: ks → c.key = some k ∧ c.frontals = [k])
    ∧ (c.nrFrontals_ ≠ 1 → c.keyAssertOK = false) := by
  constructor
  · intro h1
    refine ⟨by simp [keyAssertOK, h1], fun k ks hk => ⟨?_, ?_⟩⟩
    · simp [key, hk]
    · simp [frontals, hk, h1]
  · intro h1
    simp [keyAssertOK, h1]

/-- Witness for claim C8 at `ConditionalBase(5, {2, 9})` (precondition
holds) and at `FromRange([1, 2], nrFrontals = 2)` (precondition fails). -/
theorem key_precondition_witness :
    (ConditionalBase.mkKeyParents 5 [2, 9]).keyAssertOK = true
    ∧ (ConditionalBase.mkKeyParents 5 [2, 9]).key = some 5
    ∧ (ConditionalBase.mkKeyParents 5 [2, 9]).frontals = [5]
    ∧ (ConditionalBase.FromRange [1, 2] 2).keyAssertOK = false := by
  have h := key_precondition (ConditionalBase.mkKeyParents 5 [2, 9])
  have h2 := key_precondition (ConditionalBase.FromRange [1, 2] 2)
  exact ⟨(h.1 rfl).1, ((h.1 rfl).2 5 [2, 9] rfl).1, ((h.1 rfl).2 5 [2, 9] rfl).2,
    h2.2 (by decide)⟩

end gtsam
